import Mathlib

/-!
Verification of the eventbus client (Go repository `luzcn6/event-bus`).

This file shallowly embeds, over `Int`, `List Char` and explicit state
passing, the parts of the source needed to settle the frozen claims:

  * `encodeOffsets` / `encodeStarting` / `createHandshake` (eventbus.go),
    together with `PartitionOffsets.MarshalJSON` and the JSON/base64
    formatting they depend on;
  * the protocol states `connecting` / `ready` / `streaming` and their
    `handleEvent` methods (states.go), over a model of Go's
    `encoding/json` unmarshalling;
  * the four reconnection schedulers (states.go);
  * the connect/read loop of `Eventbus.Run` (eventbus.go);
  * `RedisOffsetStore.SetOffset` (offset-store source file).

Go `time.Duration` values are int64 nanoseconds and are modelled as `Int`,
with two's-complement wraparound (`int64Wrap`) applied where the source
performs int64 arithmetic that can overflow: the delay product in
`calculateDelay` and the doubling in the limited-exponential precompute
loop.  The limited scheduler's `int32` attempt counter likewise wraps
(`int32Wrap`).  The 64-bit `int` counter of the limited-exponential
scheduler is modelled as unbounded, since wrapping it takes 2^63 calls,
beyond any physical execution; the exponential scheduler's counter is
also idealized, with its theorems explicitly bounded at attempt 63,
far below any wrap.
-/

namespace Eventbus

/-! ## Character and string utilities (strconv, sorting, JSON text) -/

/-- Left brace character, written via its code point. -/
def lbrace : Char := Char.ofNat 123

/-- Right brace character, written via its code point. -/
def rbrace : Char := Char.ofNat 125

/-- Decimal digit character for `n < 10`. -/
def digitChar (n : Nat) : Char := Char.ofNat (48 + n)

/-- Decimal digits of a natural number, most significant first
(fuel-based so that it evaluates by `rfl`/`decide`); embeds the digit
production of Go's `strconv.Itoa`/`FormatInt` for non-negative input. -/
def natCharsAux : Nat → Nat → List Char
  | 0, _ => []
  | f + 1, n =>
    if n < 10 then [digitChar n]
    else natCharsAux f (n / 10) ++ [digitChar (n % 10)]

/-- Decimal representation of a natural number. -/
def natChars (n : Nat) : List Char := natCharsAux (n + 1) n

/-- Decimal representation of an integer: Go's
`strconv.Itoa(int(k))` / `strconv.FormatInt(v, 10)`. -/
def intChars (i : Int) : List Char :=
  if i < 0 then '-' :: natChars (-i).toNat else natChars i.toNat

/-- Byte-wise (code-point) lexicographic order on strings, as used by
Go's `sort.Strings` when `encoding/json` sorts the keys of a map. -/
def lexLe : List Char → List Char → Bool
  | [], _ => true
  | _ :: _, [] => false
  | a :: as, b :: bs =>
    if a.toNat < b.toNat then true
    else if b.toNat < a.toNat then false
    else lexLe as bs

/-- Insert a key/value pair into a list sorted by `lexLe` on the key. -/
def insertByKey (p : List Char × List Char) :
    List (List Char × List Char) → List (List Char × List Char)
  | [] => [p]
  | q :: qs => if lexLe p.1 q.1 then p :: q :: qs else q :: insertByKey p qs

/-- Sort key/value pairs by key, as `encoding/json` does for Go maps. -/
def sortByKey : List (List Char × List Char) → List (List Char × List Char)
  | [] => []
  | p :: ps => insertByKey p (sortByKey ps)

/-- JSON string quoting.  The strings this development marshals are JSON
object keys and decimal numerals produced by `intChars`, which contain no
characters that `encoding/json` escapes, so quoting is plain wrapping. -/
def jsonQuote (s : List Char) : List Char := '"' :: s ++ ['"']

/-- Join JSON object members with commas. -/
def joinMembers : List (List Char) → List Char
  | [] => []
  | [m] => m
  | m :: ms => m ++ ',' :: joinMembers ms

/-- Marshal an object whose field values are already JSON text, with the
fields sorted by key: the shape `encoding/json` produces for a Go map. -/
def marshalObjRaw (fields : List (List Char × List Char)) : List Char :=
  lbrace :: joinMembers ((sortByKey fields).map fun kv => jsonQuote kv.1 ++ ':' :: kv.2)
    ++ [rbrace]

/-- Marshal a `map[string]string` as `encoding/json` does: keys sorted,
each value a JSON string. -/
def marshalStringMap (fields : List (List Char × List Char)) : List Char :=
  marshalObjRaw (fields.map fun kv => (kv.1, jsonQuote kv.2))

/-! ## Base64 (Go `encoding/base64` StdEncoding) -/

/-- The standard base64 alphabet. -/
def b64Alphabet : List Char :=
  "ABCDEFGHIJKLMNOPQRSTUVWXYZabcdefghijklmnopqrstuvwxyz0123456789+/".data

/-- Character for a 6-bit group. -/
def b64Char (n : Nat) : Char := b64Alphabet.getD n 'A'

/-- Standard base64 of a byte sequence, with `=` padding
(`base64.StdEncoding.EncodeToString`). -/
def b64EncodeBytes : List Nat → List Char
  | [] => []
  | [a] => [b64Char (a / 4), b64Char (a % 4 * 16), '=', '=']
  | [a, b] => [b64Char (a / 4), b64Char (a % 4 * 16 + b / 16), b64Char (b % 16 * 4), '=']
  | a :: b :: c :: rest =>
    b64Char (a / 4) :: b64Char (a % 4 * 16 + b / 16) ::
      b64Char (b % 16 * 4 + c / 64) :: b64Char (c % 64) :: b64EncodeBytes rest

/-- Base64 of an ASCII string (the JSON payloads encoded by the client
are ASCII, so bytes coincide with code points). -/
def base64Encode (s : List Char) : List Char := b64EncodeBytes (s.map Char.toNat)

/-! ## Offsets and handshake encoding (eventbus.go, offset-store file) -/

/-- PartitionOffsets: map from partition (int32) to offset (int64),
represented as an association list with distinct keys. -/
abbrev PartitionOffsets := List (Int × Int)

/-- MarshalJSON of `PartitionOffsets`: numeric keys and values are
rendered as decimal strings into a `map[string]string`, which
`encoding/json` marshals with sorted keys. -/
def marshalPartitionOffsets (po : PartitionOffsets) : List Char :=
  marshalStringMap (po.map fun kv => (intChars kv.1, intChars kv.2))

/-- The JSON text `json.Marshal` produces in `encodeOffsets` for
`map[string]PartitionOffsets` holding the snapshot under key `"p"`. -/
def jsonPartitionMap (po : PartitionOffsets) : List Char :=
  marshalObjRaw [("p".data, marshalPartitionOffsets po)]

/-- The JSON text `json.Marshal` produces in `encodeStarting` for
`map[string]string` holding the boundary directive under key `"d"`. -/
def jsonDirective (position : Int) : List Char :=
  marshalStringMap [("d".data, intChars position)]

/-- encodeOffsets (eventbus.go): base64 of the `p`-keyed JSON object. -/
def encodeOffsets (offsets : PartitionOffsets) : List Char :=
  base64Encode (jsonPartitionMap offsets)

/-- encodeStarting (eventbus.go): base64 of the `d`-keyed JSON object
with the starting position rendered by `strconv.FormatInt(position, 10)`. -/
def encodeStarting (position : Int) : List Char :=
  base64Encode (jsonDirective position)

/-- Modelled from the spec: the boundary-directive sentinel meaning
"start from oldest".  `src/` references `OffsetOldest` but does not
define it; the spec fixes only that the directive carries a signed
integer, and the value here follows the Kafka consumer convention the
source's "sarama offset" comment points to. -/
def OffsetOldest : Int := -2

/-- Modelled from the spec: the boundary-directive sentinel meaning
"start from newest" (`StartAtNewest`); see `OffsetOldest`. -/
def OffsetNewest : Int := -1

/-- Client identity configuration (eventbus.go `Config`); the endpoint
is not part of the handshake payload and is omitted. -/
structure Config where
  authToken : List Char
  stream : List Char
  client : List Char
  version : List Char

/-- Result of `offsetStore.GetOffsets`: either an error, or `nil`
(no data), or a snapshot. -/
inductive GetOffsetsResult where
  | storeError (msg : List Char)
  | noData
  | snapshot (po : PartitionOffsets)

/-- createHandshake (eventbus.go): the five identity fields are always
set; the `state` field is set only when `GetOffsets` returns a nil
error, from the snapshot when one exists and otherwise from the
configured starting offset.  The Go map is modelled as an association
list with distinct keys, queried by `List.lookup`. -/
def createHandshake (cfg : Config) (serverID : List Char)
    (stored : GetOffsetsResult) (startingOffset : Int) :
    List (List Char × List Char) :=
  let handshake := [("id".data, serverID),
    ("authentication".data, cfg.authToken),
    ("stream".data, cfg.stream),
    ("client".data, cfg.client),
    ("version".data, cfg.version)]
  match stored with
  | .storeError _ => handshake
  | .noData => handshake ++ [("state".data, encodeStarting startingOffset)]
  | .snapshot po => handshake ++ [("state".data, encodeOffsets po)]

/-! ## JSON values and Go `encoding/json` syntax

The inbound frames are decoded with `json.Unmarshal`; its syntax (RFC
8259, as accepted by Go's scanner) is embedded as a lexer plus a
recursive-descent parser.  Both are fuel-based so every concrete run
evaluates by `rfl`; the fuel bounds in `parseJson` dominate the number
of tokens and are never reached on inputs the fuel admits. -/

/-- JSON values.  Number literals are kept as source text because Go
decodes them per target field (`strconv.ParseInt` for integer fields). -/
inductive Json where
  | jnull
  | jbool (b : Bool)
  | jnum (lit : List Char)
  | jstr (s : List Char)
  | jarr (elems : List Json)
  | jobj (fields : List (List Char × Json))

/-- JSON tokens. -/
inductive JTok where
  | lb | rb | lbk | rbk | colon | comma
  | str (s : List Char)
  | num (lit : List Char)
  | litNull | litTrue | litFalse
deriving DecidableEq

/-- Whitespace accepted between JSON tokens. -/
def isJsonWs (c : Char) : Bool :=
  c = ' ' || c = Char.ofNat 9 || c = Char.ofNat 10 || c = Char.ofNat 13

/-- Drop leading JSON whitespace. -/
def skipWs : List Char → List Char
  | [] => []
  | c :: cs => if isJsonWs c then skipWs cs else c :: cs

/-- Value of a hexadecimal digit. -/
def hexVal (c : Char) : Option Nat :=
  if c.isDigit then some (c.toNat - 48)
  else if 'a' ≤ c ∧ c ≤ 'f' then some (c.toNat - 87)
  else if 'A' ≤ c ∧ c ≤ 'F' then some (c.toNat - 55)
  else none

/-- Lex a JSON string body (after the opening quote): escapes as in Go's
scanner, raw control characters rejected.  A `\u` escape becomes the
code point directly (surrogate-pair joining is not modelled; no claim
exercises it). -/
def lexStringAux : List Char → List Char → Option (List Char × List Char)
  | _, [] => none
  | acc, c :: cs =>
    if c = '"' then some (acc.reverse, cs)
    else if c = '\\' then
      match cs with
      | [] => none
      | e :: cs2 =>
        if e = '"' then lexStringAux ('"' :: acc) cs2
        else if e = '\\' then lexStringAux ('\\' :: acc) cs2
        else if e = '/' then lexStringAux ('/' :: acc) cs2
        else if e = 'b' then lexStringAux (Char.ofNat 8 :: acc) cs2
        else if e = 'f' then lexStringAux (Char.ofNat 12 :: acc) cs2
        else if e = 'n' then lexStringAux (Char.ofNat 10 :: acc) cs2
        else if e = 'r' then lexStringAux (Char.ofNat 13 :: acc) cs2
        else if e = 't' then lexStringAux (Char.ofNat 9 :: acc) cs2
        else if e = 'u' then
          match cs2 with
          | h1 :: h2 :: h3 :: h4 :: cs3 =>
            match hexVal h1, hexVal h2, hexVal h3, hexVal h4 with
            | some a, some b, some c3, some d =>
              lexStringAux (Char.ofNat (a * 4096 + b * 256 + c3 * 16 + d) :: acc) cs3
            | _, _, _, _ => none
          | _ => none
        else none
    else if c.toNat < 32 then none
    else lexStringAux (c :: acc) cs

/-- Take a maximal run of decimal digits. -/
def takeDigits : List Char → List Char × List Char
  | [] => ([], [])
  | c :: cs =>
    if c.isDigit then
      let p := takeDigits cs
      (c :: p.1, p.2)
    else ([], c :: cs)

/-- Integer part of a JSON number: `0`, or a nonzero digit followed by
digits (leading zeros rejected, as in Go). -/
def lexIntPart : List Char → Option (List Char × List Char)
  | [] => none
  | c :: cs =>
    if c = '0' then some (['0'], cs)
    else if c.isDigit then
      let p := takeDigits cs
      some (c :: p.1, p.2)
    else none

/-- Optional fraction part: a dot must be followed by at least one digit. -/
def lexFracPart : List Char → Option (List Char × List Char)
  | '.' :: cs =>
    match takeDigits cs with
    | ([], _) => none
    | (ds, r) => some ('.' :: ds, r)
  | cs => some ([], cs)

/-- Optional exponent part: `e`/`E`, optional sign, at least one digit. -/
def lexExpPart : List Char → Option (List Char × List Char)
  | c :: cs =>
    if c = 'e' ∨ c = 'E' then
      match cs with
      | s :: cs2 =>
        if s = '+' ∨ s = '-' then
          match takeDigits cs2 with
          | ([], _) => none
          | (ds, r) => some (c :: s :: ds, r)
        else
          match takeDigits cs with
          | ([], _) => none
          | (ds, r) => some (c :: ds, r)
      | [] => none
    else some ([], c :: cs)
  | [] => some ([], [])

/-- Lex a JSON number starting at a `-` or digit; returns the literal. -/
def lexNum (cs : List Char) : Option (List Char × List Char) :=
  let sp : List Char × List Char :=
    match cs with
    | '-' :: r => (['-'], r)
    | r => ([], r)
  match lexIntPart sp.2 with
  | none => none
  | some (ip, cs2) =>
    match lexFracPart cs2 with
    | none => none
    | some (fp, cs3) =>
      match lexExpPart cs3 with
      | none => none
      | some (ep, cs4) => some (sp.1 ++ ip ++ fp ++ ep, cs4)

/-- Tokenize JSON text.  Fuel bounds the number of tokens; every
iteration consumes at least one character, so `length + 1` fuel suffices. -/
def lexJson : Nat → List Char → Option (List JTok)
  | 0, _ => none
  | f + 1, cs =>
    match skipWs cs with
    | [] => some []
    | c :: rest =>
      if c = lbrace then (lexJson f rest).map (.lb :: ·)
      else if c = rbrace then (lexJson f rest).map (.rb :: ·)
      else if c = '[' then (lexJson f rest).map (.lbk :: ·)
      else if c = ']' then (lexJson f rest).map (.rbk :: ·)
      else if c = ':' then (lexJson f rest).map (.colon :: ·)
      else if c = ',' then (lexJson f rest).map (.comma :: ·)
      else if c = '"' then
        match lexStringAux [] rest with
        | none => none
        | some (s, r) => (lexJson f r).map (.str s :: ·)
      else if c = 'n' then
        match rest with
        | 'u' :: 'l' :: 'l' :: r => (lexJson f r).map (.litNull :: ·)
        | _ => none
      else if c = 't' then
        match rest with
        | 'r' :: 'u' :: 'e' :: r => (lexJson f r).map (.litTrue :: ·)
        | _ => none
      else if c = 'f' then
        match rest with
        | 'a' :: 'l' :: 's' :: 'e' :: r => (lexJson f r).map (.litFalse :: ·)
        | _ => none
      else if c = '-' || c.isDigit then
        match lexNum (c :: rest) with
        | none => none
        | some (lit, r) => (lexJson f r).map (.num lit :: ·)
      else none

/-- Parse one JSON value from a token stream.  Object and array tails
are parsed by re-entering the value parser behind a synthetic opening
token, with the guards Go's parser imposes: an object member after a
comma must start with a string key, and an array does not allow a
trailing comma. -/
def parseV : Nat → List JTok → Option (Json × List JTok)
  | 0, _ => none
  | f + 1, ts =>
    match ts with
    | .litNull :: r => some (.jnull, r)
    | .litTrue :: r => some (.jbool true, r)
    | .litFalse :: r => some (.jbool false, r)
    | .num lit :: r => some (.jnum lit, r)
    | .str s :: r => some (.jstr s, r)
    | .lb :: .rb :: r => some (.jobj [], r)
    | .lb :: .str k :: .colon :: r =>
      (match parseV f r with
      | none => none
      | some (v, r2) =>
        match r2 with
        | .rb :: r3 => some (.jobj [(k, v)], r3)
        | .comma :: .str k2 :: r3 =>
          match parseV f (.lb :: .str k2 :: r3) with
          | some (.jobj fs, r4) => some (.jobj ((k, v) :: fs), r4)
          | _ => none
        | _ => none)
    | .lb :: _ => none
    | .lbk :: .rbk :: r => some (.jarr [], r)
    | .lbk :: r =>
      (match parseV f r with
      | none => none
      | some (v, r2) =>
        match r2 with
        | .rbk :: r3 => some (.jarr [v], r3)
        | .comma :: .rbk :: _ => none
        | .comma :: r3 =>
          match parseV f (.lbk :: r3) with
          | some (.jarr vs, r4) => some (.jarr (v :: vs), r4)
          | _ => none
        | _ => none)
    | _ => none

/-- Parse a complete JSON document: lex, parse one value, require the
token stream to be exhausted.  This is the model of "the body is
syntactically valid JSON". -/
def parseJson (cs : List Char) : Option Json :=
  match lexJson (cs.length + 1) cs with
  | none => none
  | some ts =>
    match parseV (2 * ts.length + 2) ts with
    | some (v, []) => some v
    | _ => none

/-! ## Go struct unmarshalling (`json.Unmarshal` into the frame types)

Go matches an object key to a struct field by its json tag, exactly or
ASCII case-insensitively; a JSON `null` leaves any field unchanged
without error; unknown keys are ignored; a top-level value that is
neither an object nor `null` is a type error. -/

/-- ASCII lower-casing, Go's fold on the all-ASCII tags used here. -/
def lowerChar (c : Char) : Char :=
  if 'A' ≤ c ∧ c ≤ 'Z' then Char.ofNat (c.toNat + 32) else c

/-- Key-to-tag matching: case-insensitive comparison against the
(lower-case) json tag. -/
def foldKeyEq (k tag : List Char) : Bool := k.map lowerChar == tag

/-- The acknowledgment frame struct (states.go `streamingEvent`):
three string fields tagged id, status, stream. -/
structure StreamingEvent where
  id : List Char
  status : List Char
  stream : List Char

/-- Zero value of `StreamingEvent`. -/
def seZero : StreamingEvent := ⟨[], [], []⟩

/-- Decode one object member into a `StreamingEvent` under construction:
a member matching a field must be a string (or null); others are skipped. -/
def seApplyField (acc : Option StreamingEvent) (kv : List Char × Json) :
    Option StreamingEvent :=
  match acc with
  | none => none
  | some s =>
    if foldKeyEq kv.1 ("id".data) then
      match kv.2 with
      | .jstr x => some { s with id := x }
      | .jnull => some s
      | _ => none
    else if foldKeyEq kv.1 ("status".data) then
      match kv.2 with
      | .jstr x => some { s with status := x }
      | .jnull => some s
      | _ => none
    else if foldKeyEq kv.1 ("stream".data) then
      match kv.2 with
      | .jstr x => some { s with stream := x }
      | .jnull => some s
      | _ => none
    else some s

/-- Unmarshal a JSON value into a `StreamingEvent`. -/
def unmarshalStreamingEventJson : Json → Option StreamingEvent
  | .jnull => some seZero
  | .jobj fs => fs.foldl seApplyField (some seZero)
  | _ => none

/-- A key that binds one of the three `streamingEvent` fields. -/
def seKeyed (k : List Char) : Prop :=
  foldKeyEq k ("id".data) = true ∨ foldKeyEq k ("status".data) = true ∨
    foldKeyEq k ("stream".data) = true

/-- A JSON value acceptable for a string field: a string, or `null`. -/
def stringFieldOk (v : Json) : Prop := (∃ s, v = .jstr s) ∨ v = .jnull

/-- Structural characterization of the bodies `json.Unmarshal` accepts
for `streamingEvent`, stated independently of the decoder: the value is
`null`, or an object in which every member binding one of the three
fields is a string or `null`. -/
def seDecodable (j : Json) : Prop :=
  j = .jnull ∨ ∃ fs, j = .jobj fs ∧ ∀ kv ∈ fs, seKeyed kv.1 → stringFieldOk kv.2

/-- Digits to a natural number. -/
def digitsToNatAux (acc : Nat) : List Char → Nat
  | [] => acc
  | c :: cs => digitsToNatAux (acc * 10 + (c.toNat - 48)) cs

/-- Integer value of a pure decimal literal; `none` when the literal
has a fraction or exponent (any non-digit), as `strconv.ParseInt` fails
on those. -/
def litToInt : List Char → Option Int
  | '-' :: ds =>
    if ds.isEmpty then none
    else if ds.all Char.isDigit then some (-(digitsToNatAux 0 ds : Nat)) else none
  | ds =>
    if ds.isEmpty then none
    else if ds.all Char.isDigit then some ((digitsToNatAux 0 ds : Nat) : Int) else none

/-- Decode a JSON number literal into an int64 field: integer literal
within the int64 range, otherwise a type/overflow error. -/
def jsonNumToInt64 (lit : List Char) : Option Int :=
  match litToInt lit with
  | none => none
  | some x => if -(2 ^ 63) ≤ x ∧ x < 2 ^ 63 then some x else none

/-- Decode a JSON number literal into an int32 field. -/
def jsonNumToInt32 (lit : List Char) : Option Int :=
  match litToInt lit with
  | none => none
  | some x => if -(2 ^ 31) ≤ x ∧ x < 2 ^ 31 then some x else none

/-- The stream message (states.go `Message`): offset int64, partition
int32, body `json.RawMessage`.  The raw body is kept as its parsed
JSON value. -/
structure Message where
  offset : Int
  partition : Int
  body : Json

/-- Zero value of `Message` (nil raw body modelled as `jnull`). -/
def msgZero : Message := ⟨0, 0, .jnull⟩

/-- Decode one object member into a `Message` under construction. -/
def msgApplyField (acc : Option Message) (kv : List Char × Json) :
    Option Message :=
  match acc with
  | none => none
  | some m =>
    if foldKeyEq kv.1 ("offset".data) then
      match kv.2 with
      | .jnum lit => (jsonNumToInt64 lit).map fun x => { m with offset := x }
      | .jnull => some m
      | _ => none
    else if foldKeyEq kv.1 ("partition".data) then
      match kv.2 with
      | .jnum lit => (jsonNumToInt32 lit).map fun x => { m with partition := x }
      | .jnull => some m
      | _ => none
    else if foldKeyEq kv.1 ("body".data) then
      some { m with body := kv.2 }
    else some m

/-- Unmarshal a JSON value into a `Message`. -/
def unmarshalMessageJson : Json → Option Message
  | .jnull => some msgZero
  | .jobj fs => fs.foldl msgApplyField (some msgZero)
  | _ => none

/-- Full unmarshalling of a frame body into a `Message`
(`json.Unmarshal(body, &m)`). -/
def unmarshalMessage (body : List Char) : Option Message :=
  match parseJson body with
  | none => none
  | some j => unmarshalMessageJson j

/-! ## Protocol state handlers (states.go) -/

/-- Outcome of `ready.handleEvent`: the returned error, whether the
state was set to `streaming`, and the payloads sent on the socket. -/
structure ReadyOutcome where
  err : Option (List Char)
  toStreaming : Bool
  sent : List (List Char)

/-- ready.handleEvent: unmarshal the body into `streamingEvent`; on
error return it (state unchanged, nothing sent); otherwise set the
state to `streaming`, sending nothing and validating nothing. -/
def readyHandleEvent (body : List Char) : ReadyOutcome :=
  match parseJson body with
  | none => ⟨some ("unmarshalling body in ready.handleEvent".data), false, []⟩
  | some j =>
    match unmarshalStreamingEventJson j with
    | none => ⟨some ("unmarshalling body in ready.handleEvent".data), false, []⟩
    | some _ => ⟨none, true, []⟩

/-- Outcome of `streaming.handleEvent`: the returned error and the
`SetOffset` invocations issued, in order. -/
structure StreamingOutcome where
  err : Option (List Char)
  setOffsetCalls : List (Int × Int)

/-- streaming.handleEvent: unmarshal the body into `Message`; deliver
to the handler; only on handler success invoke `store.SetOffset` with
the message's partition and offset; propagate any error.  The handler
and the store's error behaviour are abstract parameters. -/
def streamingHandleEvent (handler : Message → Option (List Char))
    (setOffsetErr : Int → Int → Option (List Char)) (body : List Char) :
    StreamingOutcome :=
  match unmarshalMessage body with
  | none => ⟨some ("unmarshalling body in streaming.handleEvent".data), []⟩
  | some m =>
    match handler m with
    | some _ => ⟨some ("handling event in streaming.handleEvent".data), []⟩
    | none =>
      match setOffsetErr m.partition m.offset with
      | some _ => ⟨some ("storing offset in streaming.handleEvent".data),
          [(m.partition, m.offset)]⟩
      | none => ⟨none, [(m.partition, m.offset)]⟩

/-! ## Reconnection schedulers (states.go)

`time.Duration` is int64 nanoseconds, modelled as `Int`.  A scheduler
call returns `(duration, exhausted)` with `exhausted = true` standing
for the non-nil `ErrReconnectsExhausted`.  The `…Run` functions return
the result of the k-th call of a scheduler started in the given state,
`none` for `k = 0`. -/

/-- Two's-complement wraparound of Go's 64-bit signed arithmetic. -/
def int64Wrap (x : Int) : Int := (x + 2 ^ 63) % 2 ^ 64 - 2 ^ 63

/-- Two's-complement wraparound of Go's 32-bit signed arithmetic. -/
def int32Wrap (x : Int) : Int := (x + 2 ^ 31) % 2 ^ 32 - 2 ^ 31

/-- calculateDelay (states.go): `time.Duration(math.Pow(2, attempts-1)) * base`.
For `attempts ≤ 63` the float64 power and its conversion are the exact
integer `2^(attempts-1)`; the subsequent `time.Duration` multiplication
is int64 and wraps, which the model keeps. -/
def calculateDelay (base : Int) (attempts : Nat) : Int :=
  int64Wrap (2 ^ (attempts - 1) * base)

/-- One call of the exponential scheduler at a given post-increment
attempt count: `math.Min` against the max delay (exact on the int64
values arising for the nanosecond bases considered here), error always
nil.  `false` = continue. -/
def exponentialBackoff (base max : Int) (attempts : Nat) : Int × Bool :=
  (min (calculateDelay base attempts) max, false)

/-- Result of the k-th call of an exponential scheduler whose attempt
counter currently holds `a`: each call first increments the counter. -/
def exponentialRun (base max : Int) (a : Nat) : Nat → Option (Int × Bool)
  | 0 => none
  | 1 => some (exponentialBackoff base max (a + 1))
  | k + 2 => exponentialRun base max (a + 1) (k + 1)

/-- One call of the limited scheduler holding `attempts`: the `int32`
counter is decremented with Go's wrapping semantics, then exhausted
exactly when the decremented counter is negative. -/
def limitedBackoff (delay attempts : Int) : (Int × Bool) × Int :=
  ((delay, decide (int32Wrap (attempts - 1) < 0)), int32Wrap (attempts - 1))

/-- Result of the k-th call of a limited scheduler whose counter holds `a`. -/
def limitedRun (delay a : Int) : Nat → Option (Int × Bool)
  | 0 => none
  | 1 => some (limitedBackoff delay a).1
  | k + 2 => limitedRun delay (limitedBackoff delay a).2 (k + 1)

/-- NewScheduler of the limited-exponential policy (states.go): the
loop `for b <= maxDelay { backoffs = append(backoffs, b); b *= 2 }`,
with the int64 doubling wrapping as in Go, fuel-indexed; `none` means
the loop has not finished within the given number of iterations (for
`base = 0 ≤ maxDelay`, or for `base = maxDelay = 2^62` where the
doubling overflows, it never does). -/
def buildBackoffs : Nat → Int → Int → Option (List Int)
  | 0, _, _ => none
  | f + 1, b, maxDelay =>
    if b ≤ maxDelay then (buildBackoffs f (int64Wrap (2 * b)) maxDelay).map (b :: ·)
    else some []

/-- The precompute loop of `NewScheduler` runs forever on the given
policy parameters: no iteration bound makes it finish. -/
def buildNeverFinishes (b maxDelay : Int) : Prop :=
  ∀ f : Nat, buildBackoffs f b maxDelay = none

/-- State of a limited-exponential scheduler: attempt counter and the
precomputed backoffs. -/
structure LEState where
  attempts : Nat
  backoffs : List Int

/-- One call of the limited-exponential scheduler: increment, then
index `backoffs[attempts-1]` while in range, else return the final
entry with the exhaustion error.  `none` models the index-out-of-range
panic on an empty sequence (Go indexes `len(backoffs)-1 = -1`). -/
def LEState.callResult (s : LEState) : Option (Int × Bool) :=
  let a := s.attempts + 1
  if s.backoffs.length < a then
    (s.backoffs.get? (s.backoffs.length - 1)).map fun v => (v, true)
  else (s.backoffs.get? (a - 1)).map fun v => (v, false)

/-- Successor state after one limited-exponential call. -/
def LEState.step (s : LEState) : LEState := ⟨s.attempts + 1, s.backoffs⟩

/-- Result of the k-th call of a limited-exponential scheduler. -/
def leRun (s : LEState) : Nat → Option (Int × Bool)
  | 0 => none
  | 1 => s.callResult
  | k + 2 => leRun s.step (k + 1)

/-! ## The connection loop (eventbus.go `Eventbus.Run`)

The loop is modelled as a step function over the socket flag and an
abstract scheduler `(S, next)` where `next` returns (duration,
exhaustion signal, next state).  The environment is two scripted
oracles: `dials` gives the outcome of each `dialer.Dial`, and `reads`
the combined outcome of each `ReadMessage` plus `state.handleEvent`
(both failure kinds close and nil the socket and continue, so they are
indistinguishable to the loop).  Sleeps and the dispatched payloads are
irrelevant to the claims and elided.  Fuel bounds the number of loop
iterations; `spinning` means the loop was still running. -/

/-- Reasons the goroutine of `Run` sends on `done` and returns. -/
inductive LoopExit where
  | exhausted
  | dialFailed (attempt : Nat)
deriving DecidableEq

/-- Observation of a bounded run of the loop. -/
inductive LoopRes where
  | exit (e : LoopExit)
  | spinning
deriving DecidableEq

/-- The connect/read loop.  `a` counts connection attempts already
made.  With no socket the loop runs `connect`: scheduler first (an
exhaustion signal is returned on `done`), then dial (a dial error is
returned on `done`, whatever the attempt number).  With a live socket
it reads and dispatches; any failure logs, closes and nils the socket
and continues the loop. -/
def runLoop {S : Type} (next : S → Int × Option Unit × S) :
    Nat → S → Nat → Bool → List Bool → List Bool → LoopRes
  | 0, _, _, _, _, _ => .spinning
  | f + 1, s, a, false, dials, reads =>
    match (next s).2.1 with
    | some _ => .exit .exhausted
    | none =>
      match dials with
      | [] => .spinning
      | ok :: ds =>
        if ok then runLoop next f (next s).2.2 (a + 1) true ds reads
        else .exit (.dialFailed (a + 1))
  | f + 1, s, a, true, dials, reads =>
    match reads with
    | [] => .spinning
    | ok :: rs =>
      if ok then runLoop next f s a true dials rs
      else runLoop next f s a false dials rs

/-- A scheduler that never signals exhaustion (used to instantiate the
loop theorems; matches the constant policy's scheduler). -/
def constantScheduler (d : Int) : Unit → Int × Option Unit × Unit :=
  fun _ => (d, none, ())

/-! ## Remote checkpoint store (`RedisOffsetStore.SetOffset`)

The redis connection is an external collaborator; its `Do("HSET", …)`
either fails in transport or yields a reply, which for HSET is an
integer or a protocol error.  `redis.Int` returns `(0, err)` when
handed a non-nil error or an error reply, and `(n, nil)` for an
integer reply — the redigo helper contract. -/

/-- Replies the backend can produce for an HSET command. -/
inductive RedisReply where
  | intReply (n : Int)
  | errReply (msg : List Char)
deriving DecidableEq

/-- Outcome of `pool.Get().Do(cmd, args...)`. -/
inductive DoOutcome where
  | ok (r : RedisReply)
  | transportErr (msg : List Char)
deriving DecidableEq

/-- redigo's `redis.Int` helper on a `(reply, err)` pair. -/
def redisInt : DoOutcome → Int × Option (List Char)
  | .transportErr e => (0, some e)
  | .ok (.errReply e) => (0, some e)
  | .ok (.intReply n) => (n, none)

/-- SetOffset (offset-store file): convert the reply with `redis.Int`;
reject any value other than 0 or 1 with a storage error; otherwise
return the conversion error (nil on an integer reply). -/
def redisSetOffset (outcome : DoOutcome) : Option (List Char) :=
  let r := redisInt outcome
  if ¬(r.1 = 1 ∨ r.1 = 0) then some ("failed to store offset".data)
  else r.2

/-! ## Helper lemmas -/

/-- Wraparound is the identity inside the int64 range. -/
theorem int64Wrap_of_bounds (x : Int) (h1 : -(2 ^ 63) ≤ x) (h2 : x < 2 ^ 63) :
    int64Wrap x = x := by
  unfold int64Wrap
  rw [Int.emod_eq_of_lt (by omega) (by omega)]
  omega

/-- Wraparound is the identity inside the int32 range. -/
theorem int32Wrap_of_bounds (x : Int) (h1 : -(2 ^ 31) ≤ x) (h2 : x < 2 ^ 31) :
    int32Wrap x = x := by
  unfold int32Wrap
  rw [Int.emod_eq_of_lt (by omega) (by omega)]
  omega

/-- Subtracting after wrapping equals wrapping the whole difference:
int32 arithmetic respects congruence modulo 2^32. -/
theorem int32Wrap_sub (x y : Int) :
    int32Wrap (int32Wrap x - y) = int32Wrap (x - y) := by
  unfold int32Wrap
  omega

/-- The k-th limited-exponential call applies `callResult` at the
counter advanced k-1 times. -/
theorem leRun_succ (k : Nat) : ∀ (a : Nat) (l : List Int),
    leRun ⟨a, l⟩ (k + 1) = LEState.callResult ⟨a + k, l⟩ := by
  induction k with
  | zero => intro a l; rfl
  | succ j ih =>
    intro a l
    have h : leRun (⟨a, l⟩ : LEState) (j + 2) = leRun ⟨a + 1, l⟩ (j + 1) := rfl
    rw [h, ih]
    have : a + 1 + j = a + (j + 1) := by omega
    rw [this]

/-- The k-th limited call returns the fixed delay and exhausts exactly
when the wrapped int32 counter has gone negative. -/
theorem limitedRun_eq (k : Nat) : ∀ (delay a : Int),
    limitedRun delay a (k + 1) =
      some (delay, decide (int32Wrap (a - (k + 1)) < 0)) := by
  induction k with
  | zero =>
    intro delay a
    show some ((delay, decide (int32Wrap (a - 1) < 0))) = _
    simp only [Option.some.injEq, Prod.mk.injEq, true_and, decide_eq_decide]
    unfold int32Wrap
    push_cast
    omega
  | succ j ih =>
    intro delay a
    have h : limitedRun delay a (j + 2) =
        limitedRun delay (int32Wrap (a - 1)) (j + 1) := rfl
    rw [h, ih]
    simp only [Option.some.injEq, Prod.mk.injEq, true_and, decide_eq_decide]
    rw [int32Wrap_sub]
    unfold int32Wrap
    push_cast
    omega

/-- The k-th exponential call computes the backoff at attempt count
advanced to its own index. -/
theorem exponentialRun_eq (k : Nat) : ∀ (base maxd : Int) (a : Nat),
    exponentialRun base maxd a (k + 1) =
      some (exponentialBackoff base maxd (a + k + 1)) := by
  induction k with
  | zero => intro base maxd a; rfl
  | succ j ih =>
    intro base maxd a
    have h : exponentialRun base maxd a (j + 2) =
        exponentialRun base maxd (a + 1) (j + 1) := rfl
    rw [h, ih]
    have : a + 1 + j + 1 = a + (j + 1) + 1 := by omega
    rw [this]

/-- Single unfolding of a connect iteration whose scheduler call does
not exhaust. -/
theorem runLoop_connect_step {S : Type} (next : S → Int × Option Unit × S)
    (f : Nat) (s : S) (a : Nat) (ok : Bool) (ds reads : List Bool)
    (hnext : (next s).2.1 = none) :
    runLoop next (f + 1) s a false (ok :: ds) reads =
      if ok then runLoop next f (next s).2.2 (a + 1) true ds reads
      else .exit (.dialFailed (a + 1)) := by
  simp only [runLoop, hnext]

/-- Single unfolding of a read/dispatch iteration. -/
theorem runLoop_read_step {S : Type} (next : S → Int × Option Unit × S)
    (f : Nat) (s : S) (a : Nat) (ok : Bool) (dials rs : List Bool) :
    runLoop next (f + 1) s a true dials (ok :: rs) =
      if ok then runLoop next f s a true dials rs
      else runLoop next f s a false dials rs := by
  simp only [runLoop]

/-- With every dial succeeding and a never-exhausting scheduler, the
loop never reaches a terminal outcome: read/dispatch failures only
recycle the socket. -/
theorem runLoop_spinning {S : Type} (next : S → Int × Option Unit × S)
    (hnext : ∀ x, (next x).2.1 = none) :
    ∀ (f : Nat) (s : S) (a : Nat) (sock : Bool) (dials reads : List Bool),
      (∀ d ∈ dials, d = true) →
      runLoop next f s a sock dials reads = .spinning := by
  intro f
  induction f with
  | zero => intro s a sock dials reads _; rfl
  | succ f ih =>
    intro s a sock dials reads hd
    cases sock with
    | false =>
      cases dials with
      | nil => simp only [runLoop, hnext s]
      | cons ok ds =>
        have hok : ok = true := hd ok (List.mem_cons_self ok ds)
        subst hok
        rw [runLoop_connect_step next f s a true ds reads (hnext s), if_pos rfl]
        exact ih _ _ _ _ _ fun d hmem => hd d (List.mem_cons_of_mem true hmem)
    | true =>
      cases reads with
      | nil => simp only [runLoop]
      | cons ok rs =>
        cases ok with
        | true =>
          rw [runLoop_read_step, if_pos rfl]
          exact ih _ _ _ _ _ hd
        | false =>
          rw [runLoop_read_step, if_neg (by simp)]
          exact ih _ _ _ _ _ hd

/-- A dial failure terminates the loop at whatever attempt number it
occurs: after n connect/read-fail cycles, the (n+1)-th dial failing
exits with that attempt number. -/
theorem runLoop_dialFailed {S : Type} (next : S → Int × Option Unit × S)
    (hnext : ∀ x, (next x).2.1 = none) :
    ∀ (n : Nat) (s : S) (a : Nat),
      runLoop next (2 * n + 1) s a false
        (List.replicate n true ++ [false]) (List.replicate n false) =
        .exit (.dialFailed (a + n + 1)) := by
  intro n
  induction n with
  | zero =>
    intro s a
    simp [runLoop, hnext s]
  | succ n ih =>
    intro s a
    have hf : 2 * (n + 1) + 1 = (2 * n + 1) + 1 + 1 := by omega
    rw [hf, List.replicate_succ, List.replicate_succ, List.cons_append,
      runLoop_connect_step next ((2 * n + 1) + 1) s a true _ _ (hnext s), if_pos rfl,
      runLoop_read_step next (2 * n + 1) (next s).2.2 (a + 1) false _ _,
      if_neg (by simp), ih (next s).2.2 (a + 1)]
    have h2 : a + 1 + n + 1 = a + (n + 1) + 1 := by omega
    rw [h2]

/-- An exhaustion signal from the scheduler terminates the loop. -/
theorem runLoop_exhausted {S : Type} (next : S → Int × Option Unit × S)
    (f : Nat) (s : S) (a : Nat) (dials reads : List Bool)
    (h : (next s).2.1 = some ()) :
    runLoop next (f + 1) s a false dials reads = .exit .exhausted := by
  simp only [runLoop, h]

/-- The precompute loop of the limited-exponential policy terminates
once the doubling value must exceed the maximum, provided the maximum
is small enough that the int64 doubling never overflows. -/
theorem buildBackoffs_terminates :
    ∀ (f : Nat) (b maxDelay : Int), 0 < b → maxDelay < 2 ^ 62 →
      maxDelay < 2 ^ f * b →
      ∃ l, buildBackoffs (f + 1) b maxDelay = some l := by
  intro f
  induction f with
  | zero =>
    intro b maxDelay hb _ hlt
    rw [pow_zero, one_mul] at hlt
    exact ⟨[], by simp [buildBackoffs, not_le.mpr hlt]⟩
  | succ f ih =>
    intro b maxDelay hb hmax hlt
    by_cases hle : b ≤ maxDelay
    · have hw : int64Wrap (2 * b) = 2 * b :=
        int64Wrap_of_bounds (2 * b) (by omega) (by omega)
      have hlt2 : maxDelay < 2 ^ f * (2 * b) := by
        rw [show (2:Int) ^ f * (2 * b) = 2 ^ (f + 1) * b by ring]
        exact hlt
      obtain ⟨l, hl⟩ := ih (2 * b) maxDelay (by omega) hmax hlt2
      refine ⟨b :: l, ?_⟩
      show (if b ≤ maxDelay then
          (buildBackoffs (f + 1) (int64Wrap (2 * b)) maxDelay).map (b :: ·)
        else some []) = some (b :: l)
      rw [if_pos hle, hw, hl]
      rfl
    · exact ⟨[], by simp [buildBackoffs, hle]⟩

/-- A terminated precompute whose first loop check passed yields a
non-empty sequence. -/
theorem buildBackoffs_ne_nil (f : Nat) (b maxDelay : Int) (l : List Int)
    (hle : b ≤ maxDelay) (h : buildBackoffs f b maxDelay = some l) : l ≠ [] := by
  cases f with
  | zero => exact Option.noConfusion h
  | succ f =>
    rw [show buildBackoffs (f + 1) b maxDelay =
      (if b ≤ maxDelay then
        (buildBackoffs f (int64Wrap (2 * b)) maxDelay).map (b :: ·)
        else some []) from rfl, if_pos hle] at h
    cases hin : buildBackoffs f (int64Wrap (2 * b)) maxDelay with
    | none => rw [hin] at h; exact Option.noConfusion h
    | some l0 =>
      rw [hin] at h
      injection h with h'
      rw [← h']
      simp

/-- On a non-empty backoff sequence every call of the scheduler finds
its index in range. -/
theorem LEState.callResult_isSome (a : Nat) (l : List Int) (hne : l ≠ []) :
    (LEState.callResult ⟨a, l⟩).isSome = true := by
  unfold LEState.callResult
  have hlen : 0 < l.length := List.length_pos.mpr hne
  by_cases hc : l.length < a + 1
  · rw [if_pos hc, List.get?_eq_get (show l.length - 1 < l.length by omega)]
    rfl
  · rw [if_neg hc, List.get?_eq_get (show a + 1 - 1 < l.length by omega)]
    rfl

/-- With base zero below the maximum the precompute loop of
`NewScheduler` never terminates: the doubled value stays zero and the
loop condition stays true. -/
theorem buildBackoffs_diverges_zero :
    ∀ (f : Nat) (maxDelay : Int), 0 ≤ maxDelay →
      buildBackoffs f 0 maxDelay = none := by
  intro f
  induction f with
  | zero => intro maxDelay _; rfl
  | succ f ih =>
    intro maxDelay hle
    show (if (0 : Int) ≤ maxDelay then
        (buildBackoffs f (int64Wrap (2 * 0)) maxDelay).map ((0 : Int) :: ·)
      else some []) = none
    rw [if_pos hle, show int64Wrap (2 * 0) = 0 by decide, ih maxDelay hle]
    rfl

/-- From the wrapped value -2^63 with a non-negative maximum the loop
also never terminates: the next doubling wraps to zero. -/
theorem buildBackoffs_diverges_minInt64 :
    ∀ (f : Nat) (maxDelay : Int), 0 ≤ maxDelay →
      buildBackoffs f (-(2 ^ 63)) maxDelay = none := by
  intro f
  cases f with
  | zero => intro maxDelay _; rfl
  | succ f =>
    intro maxDelay hle
    show (if (-(2 ^ 63) : Int) ≤ maxDelay then
        (buildBackoffs f (int64Wrap (2 * -(2 ^ 63))) maxDelay).map ((-(2 ^ 63) : Int) :: ·)
      else some []) = none
    rw [if_pos (by omega), show int64Wrap (2 * -(2 ^ 63)) = 0 by decide,
      buildBackoffs_diverges_zero f maxDelay hle]
    rfl

/-- At base = max = 2^62 the int64 doubling overflows (2^63 wraps to
-2^63, then to 0) and the precompute loop never terminates. -/
theorem buildNeverFinishes_two_pow_62 : buildNeverFinishes (2 ^ 62) (2 ^ 62) := by
  intro f
  cases f with
  | zero => rfl
  | succ f =>
    show (if (2 ^ 62 : Int) ≤ 2 ^ 62 then
        (buildBackoffs f (int64Wrap (2 * 2 ^ 62)) (2 ^ 62)).map (((2 : Int) ^ 62) :: ·)
      else some []) = none
    rw [if_pos le_rfl, show int64Wrap (2 * 2 ^ 62) = -(2 ^ 63) by decide,
      buildBackoffs_diverges_minInt64 f (2 ^ 62) (by norm_num)]
    rfl

/-- Folding the event-field decoder from a failed state stays failed. -/
theorem foldl_seApplyField_none (fs : List (List Char × Json)) :
    fs.foldl seApplyField none = none := by
  induction fs with
  | nil => rfl
  | cons kv fs ih => exact ih

/-- One member decodes (from any live state) exactly when a matching
key carries a string-or-null value. -/
theorem seApplyField_isSome_iff (s : StreamingEvent) (kv : List Char × Json) :
    (seApplyField (some s) kv).isSome = true ↔ (seKeyed kv.1 → stringFieldOk kv.2) := by
  obtain ⟨k, v⟩ := kv
  simp only [seApplyField, seKeyed, stringFieldOk]
  by_cases hid : foldKeyEq k ("id".data) = true <;>
    by_cases hst : foldKeyEq k ("status".data) = true <;>
      by_cases hsm : foldKeyEq k ("stream".data) = true <;>
        cases v <;> simp_all

/-- A successful decode yields some live state to continue from. -/
theorem seApplyField_some (s : StreamingEvent) (kv : List Char × Json)
    (h : (seApplyField (some s) kv).isSome = true) :
    ∃ s', seApplyField (some s) kv = some s' := by
  cases hv : seApplyField (some s) kv with
  | none => rw [hv] at h; simp at h
  | some s' => exact ⟨s', rfl⟩

/-- The whole fold succeeds exactly when every member is acceptable. -/
theorem foldl_seApplyField_isSome (fs : List (List Char × Json)) :
    ∀ s : StreamingEvent, (fs.foldl seApplyField (some s)).isSome = true ↔
      ∀ kv ∈ fs, seKeyed kv.1 → stringFieldOk kv.2 := by
  induction fs with
  | nil => intro s; simp
  | cons kv0 fs ih =>
    intro s
    rw [List.foldl_cons]
    cases hv : seApplyField (some s) kv0 with
    | none =>
      rw [foldl_seApplyField_none]
      constructor
      · intro h; exact absurd h (by simp)
      · intro hall
        have h1 : (seApplyField (some s) kv0).isSome = true :=
          (seApplyField_isSome_iff s kv0).mpr (hall kv0 (List.mem_cons_self kv0 fs))
        rw [hv] at h1
        exact absurd h1 (by simp)
    | some s' =>
      rw [ih s']
      constructor
      · intro hall kv' hkv'
        rcases List.mem_cons.mp hkv' with heq | hmem
        · subst heq
          exact (seApplyField_isSome_iff s kv').mp (by rw [hv]; rfl)
        · exact hall kv' hmem
      · intro hall kv' hkv'
        exact hall kv' (List.mem_cons_of_mem kv0 hkv')

/-- Decoder success coincides with the structural characterization. -/
theorem unmarshalStreamingEventJson_isSome_iff (j : Json) :
    (unmarshalStreamingEventJson j).isSome = true ↔ seDecodable j := by
  cases j with
  | jnull => exact ⟨fun _ => Or.inl rfl, fun _ => rfl⟩
  | jobj fs =>
    rw [show unmarshalStreamingEventJson (.jobj fs) = fs.foldl seApplyField (some seZero)
      from rfl, foldl_seApplyField_isSome fs seZero]
    constructor
    · intro hall; exact Or.inr ⟨fs, rfl, hall⟩
    · rintro (h | ⟨fs', hfs', hall⟩)
      · exact absurd h (by intro h; exact Json.noConfusion h)
      · cases hfs'; exact hall
  | jbool b =>
    constructor
    · intro h; exact absurd h (by simp [unmarshalStreamingEventJson])
    · rintro (h | ⟨fs', hfs', _⟩)
      · exact Json.noConfusion h
      · exact Json.noConfusion hfs'
  | jnum lit =>
    constructor
    · intro h; exact absurd h (by simp [unmarshalStreamingEventJson])
    · rintro (h | ⟨fs', hfs', _⟩)
      · exact Json.noConfusion h
      · exact Json.noConfusion hfs'
  | jstr s =>
    constructor
    · intro h; exact absurd h (by simp [unmarshalStreamingEventJson])
    · rintro (h | ⟨fs', hfs', _⟩)
      · exact Json.noConfusion h
      · exact Json.noConfusion hfs'
  | jarr es =>
    constructor
    · intro h; exact absurd h (by simp [unmarshalStreamingEventJson])
    · rintro (h | ⟨fs', hfs', _⟩)
      · exact Json.noConfusion h
      · exact Json.noConfusion hfs'

/-! ## Claim theorems -/

/-- C1: in the Streaming state, for every successfully parsed stream
message m, the checkpoint store's SetOffset is invoked with
(m.Partition, m.Offset) if and only if the Handler returned success
(nil error) for m; on a Handler error no checkpoint write for m is
issued and handleEvent returns an error. -/
theorem streaming_checkpoint_iff_handler_success
    (handler : Message → Option (List Char))
    (setOffsetErr : Int → Int → Option (List Char))
    (body : List Char) (m : Message)
    (hparse : unmarshalMessage body = some m) :
    ((streamingHandleEvent handler setOffsetErr body).setOffsetCalls =
        [(m.partition, m.offset)] ↔ handler m = none)
    ∧ (handler m ≠ none →
        (streamingHandleEvent handler setOffsetErr body).setOffsetCalls = []
        ∧ (streamingHandleEvent handler setOffsetErr body).err ≠ none) := by
  unfold streamingHandleEvent
  rw [hparse]
  cases hh : handler m with
  | none => cases hs : setOffsetErr m.partition m.offset <;> simp [hh, hs]
  | some e => simp [hh]

/-- Witness for C1 at the end-to-end example frame with a succeeding
handler and store. -/
theorem streaming_checkpoint_iff_handler_success_witness :
    unmarshalMessage ("\x7b\"offset\":5,\"partition\":0,\"body\":\"x\"\x7d".data) =
      some ⟨5, 0, .jstr ['x']⟩
    ∧ (streamingHandleEvent (fun _ => none) (fun _ _ => none)
        ("\x7b\"offset\":5,\"partition\":0,\"body\":\"x\"\x7d".data)).setOffsetCalls =
      [(0, 5)] := by
  refine ⟨rfl, ?_⟩
  have h := streaming_checkpoint_iff_handler_success (fun _ => none) (fun _ _ => none)
    ("\x7b\"offset\":5,\"partition\":0,\"body\":\"x\"\x7d".data) ⟨5, 0, .jstr ['x']⟩ rfl
  exact h.1.mpr rfl

/-- C4: the limited-exponential scheduler built with base 1s and max 8s
precomputes exactly [1s, 2s, 4s, 8s]; calls 1 through 4 return those
values in order with the continue outcome, and every call from the 5th
onward returns 8s with the exhausted outcome. -/
theorem limited_exponential_1s_8s_schedule :
    buildBackoffs 8 (10 ^ 9) (8 * 10 ^ 9) =
      some [10 ^ 9, 2 * 10 ^ 9, 4 * 10 ^ 9, 8 * 10 ^ 9]
    ∧ ∀ k : Nat,
      (1 ≤ k → k ≤ 4 →
        leRun ⟨0, [10 ^ 9, 2 * 10 ^ 9, 4 * 10 ^ 9, 8 * 10 ^ 9]⟩ k =
          some (([10 ^ 9, 2 * 10 ^ 9, 4 * 10 ^ 9, 8 * 10 ^ 9] : List Int).getD (k - 1) 0,
            false))
      ∧ (5 ≤ k →
        leRun ⟨0, [10 ^ 9, 2 * 10 ^ 9, 4 * 10 ^ 9, 8 * 10 ^ 9]⟩ k =
          some (8 * 10 ^ 9, true)) := by
  refine ⟨by decide, fun k => ⟨fun h1 h4 => ?_, fun h5 => ?_⟩⟩
  · interval_cases k <;> decide
  · obtain ⟨j, rfl⟩ : ∃ j, k = j + 1 := ⟨k - 1, by omega⟩
    rw [leRun_succ]
    simp only [LEState.callResult, Nat.zero_add, List.length_cons, List.length_nil]
    rw [if_pos (by omega)]
    rfl

/-- Witness for C4 at the first and the fifth call. -/
theorem limited_exponential_1s_8s_schedule_witness :
    leRun ⟨0, [10 ^ 9, 2 * 10 ^ 9, 4 * 10 ^ 9, 8 * 10 ^ 9]⟩ 1 = some (10 ^ 9, false)
    ∧ leRun ⟨0, [10 ^ 9, 2 * 10 ^ 9, 4 * 10 ^ 9, 8 * 10 ^ 9]⟩ 5 =
      some (8 * 10 ^ 9, true) := by
  constructor
  · exact (limited_exponential_1s_8s_schedule.2 1).1 (by norm_num) (by norm_num)
  · exact (limited_exponential_1s_8s_schedule.2 5).2 (by norm_num)

/-- C5 counterexample: with N = 3 and d = 2s, call number 2^31 + 4 of
the limited scheduler returns (d, continue): the int32 counter
decrement wraps at -2^31, so the counter is 2^31 - 1 ≥ 0 again,
refuting "the (N+1)-th and every later call returns (d, exhausted)". -/
theorem limited_scheduler_wrap_returns_continue :
    limitedRun (2 * 10 ^ 9) 3 2147483652 = some (2 * 10 ^ 9, false)
    ∧ 4 ≤ 2147483652 := by
  constructor
  · rw [show (2147483652 : Nat) = 2147483651 + 1 by norm_num, limitedRun_eq]
    decide
  · norm_num

/-- C5 amended: for a limited scheduler built with N attempts (an int32
value, 0 ≤ N ≤ 2^31 - 1) and fixed delay d, each of the first N calls
returns (d, continue); the (N+1)-th through (N + 2^31)-th calls return
(d, exhausted); from call N + 2^31 + 1 through call N + 2^32 the
wrapped counter is non-negative again and the calls return
(d, continue). -/
theorem limited_scheduler_schedule (attempts delay : Int) (k : Nat)
    (h0 : 0 ≤ attempts) (hN : attempts ≤ 2 ^ 31 - 1) (hk : 1 ≤ k) :
    ((k : Int) ≤ attempts → limitedRun delay attempts k = some (delay, false))
    ∧ (attempts < (k : Int) → (k : Int) ≤ attempts + 2 ^ 31 →
        limitedRun delay attempts k = some (delay, true))
    ∧ (attempts + 2 ^ 31 < (k : Int) → (k : Int) ≤ attempts + 2 ^ 32 →
        limitedRun delay attempts k = some (delay, false)) := by
  obtain ⟨j, rfl⟩ : ∃ j, k = j + 1 := ⟨k - 1, by omega⟩
  rw [limitedRun_eq]
  refine ⟨fun h => ?_, fun h1 h2 => ?_, fun h1 h2 => ?_⟩
  · have hlt : ¬(int32Wrap (attempts - ((j : Int) + 1)) < 0) := by
      unfold int32Wrap
      push_cast at h
      omega
    simp [hlt]
  · have hlt : int32Wrap (attempts - ((j : Int) + 1)) < 0 := by
      unfold int32Wrap
      push_cast at h1 h2
      omega
    simp [hlt]
  · have hlt : ¬(int32Wrap (attempts - ((j : Int) + 1)) < 0) := by
      unfold int32Wrap
      push_cast at h1 h2
      omega
    simp [hlt]

/-- Witness for the amended C5 with N = 3, d = 2s, at the third and
fourth calls. -/
theorem limited_scheduler_schedule_witness :
    limitedRun (2 * 10 ^ 9) 3 3 = some (2 * 10 ^ 9, false)
    ∧ limitedRun (2 * 10 ^ 9) 3 4 = some (2 * 10 ^ 9, true) :=
  ⟨(limited_scheduler_schedule 3 (2 * 10 ^ 9) 3 (by norm_num) (by norm_num)
      (by norm_num)).1 (by norm_num),
   (limited_scheduler_schedule 3 (2 * 10 ^ 9) 4 (by norm_num) (by norm_num)
      (by norm_num)).2.1 (by norm_num) (by norm_num)⟩

/-- C8: the remote-backend SetOffset returns success exactly when the
HSET reply is the integer 0 (field updated) or 1 (field created) with
no transport error; any other reply value or backend error yields a
non-nil storage error, so a failed write is never reported as success. -/
theorem redis_set_offset_success_iff (o : DoOutcome) :
    redisSetOffset o = none ↔ o = .ok (.intReply 0) ∨ o = .ok (.intReply 1) := by
  cases o with
  | transportErr e => simp [redisSetOffset, redisInt]
  | ok r =>
    cases r with
    | errReply e => simp [redisSetOffset, redisInt]
    | intReply n =>
      by_cases h : n = 1 ∨ n = 0
      · rcases h with h | h <;> subst h <;> simp [redisSetOffset, redisInt]
      · simp only [redisSetOffset, redisInt, if_pos h]
        constructor
        · intro hc; exact Option.noConfusion hc
        · rintro (hc | hc) <;> (injection hc with hr; injection hr with hn) <;> omega

/-- C6 counterexample: the claim that the k-th call of the exponential
scheduler with base 1s, max 32s returns min(base·2^(k-1), max) fails at
k = 35, where the int64 product 2^34 · 10^9 overflows and the call
returns a negative duration instead of 32s.  The 34 preceding sleeps
are clamped to at most 32s, so this call is reachable in minutes. -/
theorem exponential_overflow_at_attempt_35 :
    exponentialRun (10 ^ 9) (32 * 10 ^ 9) 0 35 = some (-1266874889709551616, false)
    ∧ ¬((-1266874889709551616 : Int) = min ((10 ^ 9) * 2 ^ (35 - 1)) (32 * 10 ^ 9)) :=
  ⟨by decide, by decide⟩

/-- C6 amended: for the exponential scheduler with base 1s and max 32s,
every call (modelled up to attempt 63, where the float-to-int64
conversion in the source is still well defined) returns outcome
continue with a duration never exceeding max, and for k ≤ 34 — before
the int64 overflow of the delay product — the k-th call returns exactly
min(base·2^(k-1), max). -/
theorem exponential_1s_32s_schedule_bounded (k : Nat) (h1 : 1 ≤ k) (h63 : k ≤ 63) :
    ∃ d : Int, exponentialRun (10 ^ 9) (32 * 10 ^ 9) 0 k = some (d, false)
      ∧ d ≤ 32 * 10 ^ 9
      ∧ (k ≤ 34 → d = min ((10 ^ 9) * 2 ^ (k - 1)) (32 * 10 ^ 9)) := by
  obtain ⟨j, rfl⟩ : ∃ j, k = j + 1 := ⟨k - 1, by omega⟩
  rw [exponentialRun_eq]
  refine ⟨min (calculateDelay (10 ^ 9) (0 + j + 1)) (32 * 10 ^ 9), rfl,
    min_le_right _ _, ?_⟩
  intro h34
  have hj : j ≤ 33 := by omega
  have hwrap : calculateDelay (10 ^ 9) (0 + j + 1) = 2 ^ j * 10 ^ 9 := by
    unfold calculateDelay
    rw [show (0 + j + 1) - 1 = j by omega]
    apply int64Wrap_of_bounds
    · have h0 : (0 : Int) < 2 ^ j * 10 ^ 9 := by positivity
      have : -(2 ^ 63 : Int) ≤ 0 := by norm_num
      omega
    · have hpow : (2 : Int) ^ j ≤ 2 ^ 33 :=
        pow_le_pow_right₀ (by norm_num) hj
      have : (2 : Int) ^ j * 10 ^ 9 ≤ 2 ^ 33 * 10 ^ 9 := by
        exact mul_le_mul_of_nonneg_right hpow (by norm_num)
      have hlt : (2 : Int) ^ 33 * 10 ^ 9 < 2 ^ 63 := by norm_num
      omega
  rw [Nat.add_sub_cancel, hwrap, mul_comm ((2 : Int) ^ j) (10 ^ 9)]

/-- Witness for the amended C6 at the sixth call, where the delay first
saturates at the maximum. -/
theorem exponential_1s_32s_schedule_bounded_witness :
    ∃ d : Int, exponentialRun (10 ^ 9) (32 * 10 ^ 9) 0 6 = some (d, false)
      ∧ d ≤ 32 * 10 ^ 9
      ∧ (6 ≤ 34 → d = min ((10 ^ 9) * 2 ^ (6 - 1)) (32 * 10 ^ 9)) :=
  exponential_1s_32s_schedule_bounded 6 (by norm_num) (by norm_num)

/-- C7: with an empty/absent checkpoint snapshot the handshake state
value is base64 of the JSON directive object keyed "d" carrying the
configured starting sentinel as a decimal string (for the modelled
oldest sentinel, base64 of the concrete directive text); with the
snapshot mapping partition 0 to 100 and 1 to 200 it is base64 of the
JSON object keyed "p" with partition keys and offsets rendered as
decimal strings. -/
theorem handshake_state_encoding (off : Int) (cfg : Config) (sid : List Char) :
    (createHandshake cfg sid .noData off).lookup ("state".data) =
      some (encodeStarting off)
    ∧ encodeStarting off = base64Encode (jsonDirective off)
    ∧ jsonDirective off = "\x7b\"d\":\"".data ++ intChars off ++ "\"\x7d".data
    ∧ (createHandshake cfg sid .noData OffsetOldest).lookup ("state".data) =
      some (base64Encode ("\x7b\"d\":\"-2\"\x7d".data))
    ∧ (createHandshake cfg sid (.snapshot [(0, 100), (1, 200)]) off).lookup
        ("state".data) = some (encodeOffsets [(0, 100), (1, 200)])
    ∧ encodeOffsets [(0, 100), (1, 200)] =
      base64Encode ("\x7b\"p\":\x7b\"0\":\"100\",\"1\":\"200\"\x7d\x7d".data)
    ∧ encodeOffsets [(0, 100), (1, 200)] =
      "eyJwIjp7IjAiOiIxMDAiLCIxIjoiMjAwIn19".data := by
  refine ⟨rfl, rfl, ?_, by rfl, rfl, by decide, by decide⟩
  simp [jsonDirective, marshalStringMap, marshalObjRaw, sortByKey, insertByKey,
    joinMembers, jsonQuote]
  exact ⟨by decide, by decide⟩

/-- C2 counterexample: when GetOffsets returns an error, the handshake
the client builds carries the five identity keys but omits the state
key, so the claimed six-key response fails at this concrete input. -/
theorem handshake_six_keys_fails_on_store_error :
    ((createHandshake ⟨"a".data, "s".data, "c".data, "v".data⟩ ("i1".data)
        (.storeError ("boom".data)) OffsetOldest).lookup ("id".data) =
      some ("i1".data))
    ∧ ((createHandshake ⟨"a".data, "s".data, "c".data, "v".data⟩ ("i1".data)
        (.storeError ("boom".data)) OffsetOldest).lookup ("authentication".data) =
      some ("a".data))
    ∧ ((createHandshake ⟨"a".data, "s".data, "c".data, "v".data⟩ ("i1".data)
        (.storeError ("boom".data)) OffsetOldest).lookup ("state".data) = none) :=
  ⟨rfl, rfl, rfl⟩

/-- C2 amended: the handshake response always contains the five
identity keys; the state key is present exactly when GetOffsets
succeeds — decoding to the d-keyed directive when no snapshot exists
and to the p-keyed partition map when one does — and is omitted when
GetOffsets returns an error. -/
theorem handshake_keys_characterization (cfg : Config) (sid : List Char)
    (stored : GetOffsetsResult) (off : Int) :
    (createHandshake cfg sid stored off).lookup ("id".data) = some sid
    ∧ (createHandshake cfg sid stored off).lookup ("authentication".data) =
      some cfg.authToken
    ∧ (createHandshake cfg sid stored off).lookup ("stream".data) = some cfg.stream
    ∧ (createHandshake cfg sid stored off).lookup ("client".data) = some cfg.client
    ∧ (createHandshake cfg sid stored off).lookup ("version".data) = some cfg.version
    ∧ (stored = .noData →
        (createHandshake cfg sid stored off).lookup ("state".data) =
          some (base64Encode (jsonDirective off)))
    ∧ (∀ po, stored = .snapshot po →
        (createHandshake cfg sid stored off).lookup ("state".data) =
          some (base64Encode (jsonPartitionMap po)))
    ∧ (∀ e, stored = .storeError e →
        (createHandshake cfg sid stored off).lookup ("state".data) = none) := by
  cases stored with
  | storeError e =>
    refine ⟨rfl, rfl, rfl, rfl, rfl, ?_, ?_, fun _ _ => rfl⟩
    · intro h; exact GetOffsetsResult.noConfusion h
    · intro po h; exact GetOffsetsResult.noConfusion h
  | noData =>
    refine ⟨rfl, rfl, rfl, rfl, rfl, fun _ => rfl, ?_, ?_⟩
    · intro po h; exact GetOffsetsResult.noConfusion h
    · intro e h; exact GetOffsetsResult.noConfusion h
  | snapshot po0 =>
    refine ⟨rfl, rfl, rfl, rfl, rfl, ?_, ?_, ?_⟩
    · intro h; exact GetOffsetsResult.noConfusion h
    · intro po h
      cases h
      rfl
    · intro e h; exact GetOffsetsResult.noConfusion h

/-- Witness for the amended C2: a successful GetOffsets with no
snapshot yields the directive-shaped state value. -/
theorem handshake_keys_characterization_witness :
    (createHandshake ⟨"a".data, "s".data, "c".data, "v".data⟩ ("i1".data)
      .noData (-2)).lookup ("state".data) =
      some (base64Encode (jsonDirective (-2))) := by
  have h := handshake_keys_characterization ⟨"a".data, "s".data, "c".data, "v".data⟩
    ("i1".data) .noData (-2)
  exact h.2.2.2.2.2.1 rfl

/-- C9 counterexample: the body `5` is syntactically valid JSON, yet
the Acknowledging-state handleEvent returns an error for it (Unmarshal
rejects a non-object top-level value), refuting "error iff not
syntactically valid JSON". -/
theorem ready_errors_on_valid_json_number :
    parseJson ("5".data) = some (.jnum ['5'])
    ∧ (readyHandleEvent ("5".data)).err ≠ none := ⟨rfl, by decide⟩

/-- C9 amended: in the Acknowledging state, handleEvent returns success
iff the body parses as JSON whose value unmarshals into the
streamingEvent struct — `null` or an object whose id/status/stream
members (matched case-insensitively) are strings or null, fields being
optional and field values otherwise unvalidated; it never sends a
payload, and on success it transitions the state to Streaming. -/
theorem ready_error_characterization (body : List Char) :
    ((readyHandleEvent body).err = none ↔
      ∃ j, parseJson body = some j ∧ seDecodable j)
    ∧ (readyHandleEvent body).sent = []
    ∧ ((readyHandleEvent body).err = none → (readyHandleEvent body).toStreaming = true) := by
  cases hp : parseJson body with
  | none =>
    have heq : readyHandleEvent body =
        ⟨some ("unmarshalling body in ready.handleEvent".data), false, []⟩ := by
      unfold readyHandleEvent
      rw [hp]
    rw [heq]
    refine ⟨?_, rfl, fun h => Option.noConfusion h⟩
    constructor
    · intro h; exact Option.noConfusion h
    · rintro ⟨j, hj, _⟩; exact Option.noConfusion hj
  | some j =>
    have heq1 : readyHandleEvent body =
        (match unmarshalStreamingEventJson j with
          | none => ⟨some ("unmarshalling body in ready.handleEvent".data), false, []⟩
          | some _ => (⟨none, true, []⟩ : ReadyOutcome)) := by
      unfold readyHandleEvent
      rw [hp]
    cases hu : unmarshalStreamingEventJson j with
    | none =>
      have heq2 : readyHandleEvent body =
          ⟨some ("unmarshalling body in ready.handleEvent".data), false, []⟩ := by
        rw [heq1, hu]
      rw [heq2]
      refine ⟨?_, rfl, fun h => Option.noConfusion h⟩
      constructor
      · intro h; exact Option.noConfusion h
      · rintro ⟨j', hj', hdec⟩
        obtain rfl : j = j' := by injection hj'
        have hsome := (unmarshalStreamingEventJson_isSome_iff j).mpr hdec
        rw [hu] at hsome
        exact absurd hsome (by simp)
    | some se =>
      have heq2 : readyHandleEvent body = ⟨none, true, []⟩ := by
        rw [heq1, hu]
      rw [heq2]
      refine ⟨?_, rfl, fun _ => rfl⟩
      constructor
      · intro _
        exact ⟨j, rfl, (unmarshalStreamingEventJson_isSome_iff j).mp (by rw [hu]; rfl)⟩
      · intro _; rfl

/-- Witness for the amended C9: the empty object `\x7b\x7d` is accepted,
transitions to Streaming, and nothing is sent. -/
theorem ready_error_characterization_witness :
    (readyHandleEvent ("\x7b\x7d".data)).err = none
    ∧ (readyHandleEvent ("\x7b\x7d".data)).toStreaming = true
    ∧ (readyHandleEvent ("\x7b\x7d".data)).sent = [] := by
  have h := ready_error_characterization ("\x7b\x7d".data)
  have he : (readyHandleEvent ("\x7b\x7d".data)).err = none :=
    h.1.mpr ⟨.jobj [], rfl,
      Or.inr ⟨[], rfl, fun kv hkv => absurd hkv (List.not_mem_nil kv)⟩⟩
  exact ⟨he, h.2.2 he, h.2.1⟩

/-- C3 counterexample: the connection loop terminates on a transport
open failure at the second attempt — first dial succeeds, a read
failure discards the socket, the reconnect dial fails and the loop
exits — refuting "a transport-open failure on any later attempt does
not terminate the loop". -/
theorem run_loop_terminates_on_second_dial_failure :
    runLoop (constantScheduler 5) 10 () 0 false [true, false] [false] =
      .exit (.dialFailed 2) ∧ 2 ≠ 1 :=
  ⟨by decide, by decide⟩

/-- C3 amended: the connection loop reaches a terminal outcome only on
scheduler exhaustion or on a transport open failure at any connection
attempt, first or later: with all dials succeeding and a
never-exhausting scheduler it runs forever (read/dispatch failures only
recycle the socket); a dial failure after n connect/read-fail cycles
terminates it at attempt n+1; and an exhaustion signal terminates it. -/
theorem run_loop_termination_characterization :
    (∀ (S : Type) (next : S → Int × Option Unit × S) (f : Nat) (s : S) (a : Nat)
      (sock : Bool) (dials reads : List Bool),
      (∀ x, (next x).2.1 = none) → (∀ d ∈ dials, d = true) →
      runLoop next f s a sock dials reads = .spinning)
    ∧ (∀ (S : Type) (next : S → Int × Option Unit × S) (n : Nat) (s : S) (a : Nat),
      (∀ x, (next x).2.1 = none) →
      runLoop next (2 * n + 1) s a false (List.replicate n true ++ [false])
        (List.replicate n false) = .exit (.dialFailed (a + n + 1)))
    ∧ (∀ (S : Type) (next : S → Int × Option Unit × S) (f : Nat) (s : S) (a : Nat)
      (dials reads : List Bool), (next s).2.1 = some () →
      runLoop next (f + 1) s a false dials reads = .exit .exhausted) :=
  ⟨fun _ next f s a sock dials reads hn hd =>
      runLoop_spinning next hn f s a sock dials reads hd,
   fun _ next n s a hn => runLoop_dialFailed next hn n s a,
   fun _ next f s a dials reads h => runLoop_exhausted next f s a dials reads h⟩

/-- Witness for the amended C3: a spinning run with one good dial, a
dial failure terminating at attempt 2, and an exhaustion exit. -/
theorem run_loop_termination_characterization_witness :
    runLoop (constantScheduler 5) 4 () 0 false [true] [true] = .spinning
    ∧ runLoop (constantScheduler 5) (2 * 1 + 1) () 0 false
        (List.replicate 1 true ++ [false]) (List.replicate 1 false) =
        .exit (.dialFailed (0 + 1 + 1))
    ∧ runLoop (fun _ : Unit => ((5 : Int), some (), ())) (0 + 1) () 0 false [] [] =
        .exit .exhausted := by
  refine ⟨?_, ?_, ?_⟩
  · exact run_loop_termination_characterization.1 Unit (constantScheduler 5) 4 () 0
      false [true] [true] (fun _ => rfl) (by decide)
  · exact run_loop_termination_characterization.2.1 Unit (constantScheduler 5) 1 () 0
      (fun _ => rfl)
  · exact run_loop_termination_characterization.2.2 Unit _ 0 () 0 [] [] rfl

/-- C10 counterexample: baseDelay ≤ maxDelay alone does not make
NewScheduler produce a scheduler at all — with baseDelay 0 (≤ maxDelay
1s) the precompute loop never terminates under any iteration bound, so
no backoff sequence exists. -/
theorem limited_exponential_zero_base_never_builds :
    buildNeverFinishes 0 (10 ^ 9) ∧ (0 : Int) ≤ 10 ^ 9 :=
  ⟨fun f => buildBackoffs_diverges_zero f (10 ^ 9) (by norm_num), by norm_num⟩

/-- C10 amended: for every limited-exponential policy with
0 < baseDelay ≤ maxDelay < 2^62 ns, the precompute terminates with a
non-empty backoff sequence and every call of the scheduler, at any
attempt count, indexes within the sequence's bounds.  Both added bounds
are needed: with baseDelay ≤ 0 the loop diverges (the counterexample),
and at baseDelay = maxDelay = 2^62 the int64 doubling overflows and the
loop also never terminates (third conjunct); a non-empty sequence is
what keeps the exhaustion branch (which indexes length - 1) in range,
an empty sequence making that call fail (second conjunct). -/
theorem limited_exponential_positive_base_in_bounds :
    (∀ b maxDelay : Int, 0 < b → b ≤ maxDelay → maxDelay < 2 ^ 62 →
      ∃ l, buildBackoffs (maxDelay.toNat + 2) b maxDelay = some l ∧ l ≠ []
        ∧ ∀ k : Nat, 1 ≤ k → (leRun ⟨0, l⟩ k).isSome = true)
    ∧ (∀ a : Nat, LEState.callResult ⟨a, []⟩ = none)
    ∧ buildNeverFinishes (2 ^ 62) (2 ^ 62) := by
  refine ⟨?_, ?_, buildNeverFinishes_two_pow_62⟩
  · intro b maxDelay hb hle hmax
    have hlt : maxDelay < 2 ^ (maxDelay.toNat + 1) * b := by
      have h1 : maxDelay ≤ (maxDelay.toNat : Int) := Int.self_le_toNat maxDelay
      have h2 : (maxDelay.toNat : Int) < 2 ^ (maxDelay.toNat + 1) := by
        have := Nat.lt_two_pow (maxDelay.toNat + 1)
        have hmono : maxDelay.toNat < 2 ^ (maxDelay.toNat + 1) :=
          lt_of_lt_of_le (Nat.lt_two_pow maxDelay.toNat)
            (Nat.pow_le_pow_right (by norm_num) (Nat.le_succ _))
        exact_mod_cast hmono
      have h3 : (2 : Int) ^ (maxDelay.toNat + 1) ≤ 2 ^ (maxDelay.toNat + 1) * b :=
        le_mul_of_one_le_right (by positivity) (by omega)
      linarith
    obtain ⟨l, hl⟩ :=
      buildBackoffs_terminates (maxDelay.toNat + 1) b maxDelay hb hmax hlt
    have hne : l ≠ [] :=
      buildBackoffs_ne_nil (maxDelay.toNat + 1 + 1) b maxDelay l hle hl
    refine ⟨l, hl, hne, ?_⟩
    intro k hk
    obtain ⟨j, rfl⟩ : ∃ j, k = j + 1 := ⟨k - 1, by omega⟩
    rw [leRun_succ]
    exact LEState.callResult_isSome (0 + j) l hne
  · intro a
    unfold LEState.callResult
    rw [if_pos (by simp)]
    rfl

/-- Witness for the amended C10 at base 1s, max 8s. -/
theorem limited_exponential_positive_base_in_bounds_witness :
    ∃ l, buildBackoffs ((8 * 10 ^ 9 : Int).toNat + 2) (10 ^ 9) (8 * 10 ^ 9) = some l
      ∧ l ≠ [] ∧ ∀ k : Nat, 1 ≤ k → (leRun ⟨0, l⟩ k).isSome = true :=
  limited_exponential_positive_base_in_bounds.1 (10 ^ 9) (8 * 10 ^ 9)
    (by norm_num) (by norm_num) (by norm_num)

end Eventbus
